import Mathlib

/-!
Verification development for the `discore` repository.

Shallow embedding of the pure/control-flow content of `discore/utils.py`,
`discore/bot.py`, `discore/tree.py` and `discore/help.py`.  External
dependencies (the filesystem, the YAML parser, the Discord client, the
`addict` merge and the stdlib formatter hooks) are modelled as explicit
parameters or, where their semantics is fixed and simple (the `addict`
deep merge, `str.title`, `str.replace`, slicing), as faithful Lean
translations.  Strings are modelled as `String` or `List Char` as
convenient; machine-level concerns do not arise.
-/

namespace Discore

/-! ## Configuration values (YAML data as loaded by `yamlenv.load`) -/

/-- A YAML/`addict` value: null, bool, int, string, or nested mapping.
String payloads are `List Char` so that file names can be split
character-wise the way Python string operations do. -/
inductive Val where
  | vnull : Val
  | vbool : Bool → Val
  | vint : Int → Val
  | vstr : List Char → Val
  | vdict : List (String × Val) → Val

/-- A configuration mapping: insertion-ordered association list, mirroring
a Python `dict` / `addict.Dict` (keys unique by construction of the ops). -/
abbrev Dict := List (String × Val)

/-- Python `d[key]` lookup (also the `key in d` test via `Option.isSome`). -/
def lookupD : Dict → String → Option Val
  | [], _ => none
  | (k, v) :: rest, key => if k = key then some v else lookupD rest key

/-- Python `d[key] = v`: replace in place if the key exists, else append
(insertion order). -/
def setKey : Dict → String → Val → Dict
  | [], key, v => [(key, v)]
  | (k, w) :: rest, key, v =>
    if k = key then (k, v) :: rest else (k, w) :: setKey rest key v

/-- Python `d.pop(key)`'s removal effect: drop the entry with that key. -/
def removeKey : Dict → String → Dict
  | [], _ => []
  | (k, v) :: rest, key => if k = key then rest else (k, v) :: removeKey rest key

/-- The `addict.Dict.update` deep merge (the external `addict` dependency,
whose behaviour `load_config` relies on): for each key of `other`, if both
the existing and the new value are mappings, merge recursively; otherwise
overwrite (or append) the entry. -/
def dictUpdate : Dict → Dict → Dict
  | self, [] => self
  | self, (k, Val.vdict d2) :: rest =>
    (match lookupD self k with
     | some (Val.vdict d1) => dictUpdate (setKey self k (Val.vdict (dictUpdate d1 d2))) rest
     | _ => dictUpdate (setKey self k (Val.vdict d2)) rest)
  | self, (k, v) :: rest => dictUpdate (setKey self k v) rest
termination_by self other => sizeOf other
decreasing_by all_goals (simp_wf; try omega)

/-- Python truthiness of an optional `addict` value; a missing attribute
reads as an empty `addict.Dict`, which is falsy. -/
def truthy : Option Val → Bool
  | none => false
  | some Val.vnull => false
  | some (Val.vbool b) => b
  | some (Val.vint n) => n != 0
  | some (Val.vstr s) => !s.isEmpty
  | some (Val.vdict d) => !d.isEmpty

/-! ## `load_config` (`discore/utils.py`, lines 198–212)

The filesystem together with the YAML parser is modelled as
`fsys : List Char → Option Dict` (file name to parsed content; `none`
means `open`/parsing raises).  The recursion is fuelled: Python recurses
unboundedly, and `none` on fuel exhaustion models the crash an unbounded
override cycle would produce. -/

/-- `load_config(configuration, recursion_key)`: deep-merge `configuration`
into the accumulated config; then, unless the recursion key is empty or
absent from the merged result, pop it, open the file it names and load that
file the same way (with the default key `"override_config"`). -/
def load_config (fsys : List Char → Option Dict) :
    Nat → Dict → Dict → String → Option Dict
  | fuel, cfg, configuration, rkey =>
    let merged := dictUpdate cfg configuration
    if rkey = "" then some merged
    else
      match lookupD merged rkey with
      | none => some merged
      | some (Val.vstr fname) =>
        (match fuel with
         | 0 => none
         | fuel' + 1 =>
           match fsys fname with
           | some content =>
             load_config fsys fuel' (removeKey merged rkey) content "override_config"
           | none => none)
      | some _ => none

/-! ## `config_init` (`discore/utils.py`, lines 154–195) -/

/-- The `configuration_file` keyword argument of `config_init`: absent,
a single path, or a list of paths. -/
inductive CfgFileKw where
  | absent : CfgFileKw
  | single : List Char → CfgFileKw
  | listed : List (List Char) → CfgFileKw

/-- The parts of the process environment `config_init` consults (after
`load_dotenv`): whether `config.yml` / `override.config.yml` exist as
files in the working directory, and the `DISCORE_CONFIG` variable. -/
structure ConfigEnv where
  configYmlExists : Bool
  overrideYmlExists : Bool
  discoreConfigEnv : Option (List Char)

/-- The packaged default configuration path
`path.join(path.dirname(__file__), "default_config.yml")`. -/
def defaultConfigFile : List Char := "discore/default_config.yml".toList

/-- Python `s.split(':')`. -/
def splitColon : List Char → List (List Char)
  | [] => [[]]
  | c :: rest =>
    match splitColon rest with
    | [] => [[]]
    | h :: t => if c = ':' then [] :: h :: t else (c :: h) :: t

/-- The `config_files` list accumulated by `config_init`, in source order:
default config, then `config.yml` if present, then `override.config.yml`
if present, then the `configuration_file` argument, then `DISCORE_CONFIG`
(split on `':'` when it contains one). -/
def config_files (env : ConfigEnv) (cfkw : CfgFileKw) : List (List Char) :=
  let fs := [defaultConfigFile]
  let fs := if env.configYmlExists then fs ++ ["config.yml".toList] else fs
  let fs := if env.overrideYmlExists then fs ++ ["override.config.yml".toList] else fs
  let fs :=
    match cfkw with
    | .absent => fs
    | .listed l => fs ++ l
    | .single s => fs ++ [s]
  match env.discoreConfigEnv with
  | none => fs
  | some s => if ':' ∈ s then fs ++ splitColon s else fs ++ [s]

/-- `config_init(**kwargs)`: if the config is already loaded, return
unchanged; otherwise load every file of `config_files` in order through
`load_config`, then the `configuration` keyword dictionary if given, and
finally set `loaded = True`. -/
def config_init (fsys : List Char → Option Dict) (fuel : Nat) (env : ConfigEnv)
    (cfkw : CfgFileKw) (configurationKw : Option Dict) (cfg : Dict) : Option Dict :=
  if truthy (lookupD cfg "loaded") then some cfg
  else
    let step : Dict → List Char → Option Dict := fun c f =>
      match fsys f with
      | some content => load_config fsys fuel c content "override_config"
      | none => none
    match (config_files env cfkw).foldlM step cfg with
    | none => none
    | some c =>
      match configurationKw with
      | none => some (setKey c "loaded" (Val.vbool true))
      | some d =>
        match load_config fsys fuel c d "override_config" with
        | none => none
        | some c' => some (setKey c' "loaded" (Val.vbool true))

theorem splitColon_of_no_colon (s : List Char) (h : ¬ ':' ∈ s) : splitColon s = [s] := by
  induction s with
  | nil => rfl
  | cons c rest ih =>
    have hc : ¬ ':' ∈ rest := fun hm => h (List.mem_cons_of_mem _ hm)
    have hne : ¬ c = ':' := fun he => h (he ▸ List.mem_cons_self c rest)
    simp [splitColon, ih hc, hne]

/-- C1: `load_config` deep-merges the given mapping into the config; when
the recursion key is empty no further file is loaded; when the key is
absent after the merge no further file is loaded; and when the key is
present after the merge (naming a file the filesystem resolves), the key
is removed and that file's content is loaded on top recursively, with the
default key `"override_config"`, so a chain of override files is followed. -/
theorem load_config_override_chain
    (fsys : List Char → Option Dict) (fuel : Nat) (cfg conf : Dict) (rkey : String) :
    (load_config fsys fuel cfg conf "" = some (dictUpdate cfg conf))
    ∧ (lookupD (dictUpdate cfg conf) rkey = none →
        load_config fsys fuel cfg conf rkey = some (dictUpdate cfg conf))
    ∧ (∀ fname content, rkey ≠ "" →
        lookupD (dictUpdate cfg conf) rkey = some (Val.vstr fname) →
        fsys fname = some content →
        load_config fsys (fuel + 1) cfg conf rkey =
          load_config fsys fuel (removeKey (dictUpdate cfg conf) rkey) content
            "override_config") := by
  refine ⟨?_, ?_, ?_⟩
  · rw [load_config.eq_def]
    simp
  · intro h
    by_cases he : rkey = ""
    · rw [load_config.eq_def]; simp [he]
    · rw [load_config.eq_def]; simp [he, h]
  · intro fname content hne hl hf
    rw [load_config.eq_def]
    simp [hne, hl, hf]

/-- Filesystem for the C1 witness: one override file `"o.yml"`. -/
def fsysC1 : List Char → Option Dict := fun f =>
  if f = "o.yml".toList then some [("b", Val.vint 2)] else none

/-- Configuration for the C1 witness: names `"o.yml"` as override file. -/
def confC1 : Dict := [("a", Val.vint 1), ("override_config", Val.vstr "o.yml".toList)]

theorem load_config_override_chain_witness :
    load_config fsysC1 1 [] confC1 "override_config" = some [("a", Val.vint 1), ("b", Val.vint 2)] := by
  have h1 : lookupD (dictUpdate [] confC1) "override_config" = some (Val.vstr "o.yml".toList) := by
    simp [dictUpdate, setKey, lookupD, confC1]
  have h := (load_config_override_chain fsysC1 0 [] confC1 "override_config").2.2
    "o.yml".toList [("b", Val.vint 2)] (by decide) h1 (by rfl)
  rw [h, load_config.eq_def]
  simp [dictUpdate, setKey, lookupD, removeKey, confC1]

/-- C2: `config_init` layers its configuration sources in a fixed order —
packaged default, `config.yml` when present, `override.config.yml` when
present, the `configuration_file` argument's file(s), the files named by
`DISCORE_CONFIG` split on `':'`, and finally the `configuration` keyword
dictionary — each later source loaded (deep-merged) over the accumulated
result, before marking the config loaded. -/
theorem config_init_layering
    (fsys : List Char → Option Dict) (fuel : Nat) (env : ConfigEnv)
    (cfkw : CfgFileKw) (kw : Option Dict) (cfg : Dict)
    (h : truthy (lookupD cfg "loaded") = false) :
    config_files env cfkw =
      [defaultConfigFile]
      ++ (if env.configYmlExists then ["config.yml".toList] else [])
      ++ (if env.overrideYmlExists then ["override.config.yml".toList] else [])
      ++ (match cfkw with
          | .absent => []
          | .single s => [s]
          | .listed l => l)
      ++ (match env.discoreConfigEnv with
          | none => []
          | some s => splitColon s)
    ∧ config_init fsys fuel env cfkw kw cfg =
        ((config_files env cfkw).foldlM
          (fun c f => (fsys f).bind fun content =>
            load_config fsys fuel c content "override_config") cfg).bind
          fun c =>
            (match kw with
             | none => some c
             | some d => load_config fsys fuel c d "override_config").map
              fun c' => setKey c' "loaded" (Val.vbool true) := by
  constructor
  · obtain ⟨cy, oy, de⟩ := env
    rcases de with _ | s
    · cases cy <;> cases oy <;> cases cfkw <;> simp [config_files]
    · by_cases hcol : ':' ∈ s
      · cases cy <;> cases oy <;> cases cfkw <;> simp [config_files, hcol]
      · cases cy <;> cases oy <;> cases cfkw <;>
          simp [config_files, hcol, splitColon_of_no_colon s hcol]
  · have hstep :
        (fun (c : Dict) (f : List Char) =>
          match fsys f with
          | some content => load_config fsys fuel c content "override_config"
          | none => none) =
        (fun (c : Dict) (f : List Char) => (fsys f).bind fun content =>
          load_config fsys fuel c content "override_config") := by
      funext c f; cases fsys f <;> rfl
    simp only [config_init, h, Bool.false_eq_true, if_false, hstep]
    cases hfold : (config_files env cfkw).foldlM
        (fun (c : Dict) (f : List Char) => (fsys f).bind fun content =>
          load_config fsys fuel c content "override_config") cfg with
    | none => rfl
    | some c =>
      cases kw with
      | none => rfl
      | some d =>
        cases hld : load_config fsys fuel c d "override_config" <;> simp [hld]

/-- Filesystem for the C2 witness: only the packaged default config. -/
def fsysC2 : List Char → Option Dict := fun f =>
  if f = defaultConfigFile then some [("a", Val.vint 1)] else none

/-- Environment for the C2 witness: no extra files, no `DISCORE_CONFIG`. -/
def envC2 : ConfigEnv := ⟨false, false, none⟩

theorem config_init_layering_witness :
    config_init fsysC2 1 envC2 CfgFileKw.absent none [] =
      some [("a", Val.vint 1), ("loaded", Val.vbool true)] := by
  rw [(config_init_layering fsysC2 1 envC2 .absent none [] rfl).2]
  simp [config_files, envC2, fsysC2, load_config, dictUpdate, setKey, lookupD]

/-! ## `logging_init` (`discore/utils.py`, lines 310–354) -/

/-- A handler installed by `logging_init`: a stream handler (flag: to
stderr rather than stdout; colorized formatter) or a file handler (plain
formatter). -/
inductive HandlerKind where
  | stream : Bool → Bool → HandlerKind
  | file : HandlerKind
deriving DecidableEq

/-- The values `logging_init` reads from `config.log` or its keyword
arguments: the log level and the stream / file / root-logger switches. -/
structure LogSetup where
  level : Nat
  stream : Bool
  streamToErr : Bool
  file : Bool
  root : Bool

/-- The logging system state: the module-global `logging_initialized`
flag and the handlers/levels of the loggers `logging_init` may touch
(the root logger, the `discore` logger, the `discord` logger). -/
structure LoggingState where
  initialized : Bool
  rootHandlers : List HandlerKind
  rootLevel : Option Nat
  discoreHandlers : List HandlerKind
  discoreLevel : Option Nat
  discordHandlers : List HandlerKind
  discordLevel : Option Nat
deriving DecidableEq

/-- `logging_init(**kwargs)`: return immediately when the flag is set;
otherwise set it, build the stream and/or file handlers, and attach the
handlers and the level either to the root logger or to the `discore` and
`discord` loggers. -/
def logging_init (ls : LogSetup) (st : LoggingState) : LoggingState :=
  if st.initialized then st
  else
    let handlers :=
      (if ls.stream then [HandlerKind.stream ls.streamToErr true] else [])
        ++ (if ls.file then [HandlerKind.file] else [])
    if ls.root then
      { st with
        initialized := true
        rootHandlers := st.rootHandlers ++ handlers
        rootLevel := some ls.level }
    else
      { st with
        initialized := true
        discoreHandlers := st.discoreHandlers ++ handlers
        discoreLevel := some ls.level
        discordHandlers := st.discordHandlers ++ handlers
        discordLevel := some ls.level }

theorem lookupD_setKey (d : Dict) (k : String) (v : Val) :
    lookupD (setKey d k v) k = some v := by
  induction d with
  | nil => simp [setKey, lookupD]
  | cons kv rest ih =>
    obtain ⟨k', w⟩ := kv
    by_cases hk : k' = k <;> simp [setKey, lookupD, hk, ih]

theorem config_init_loaded
    (fsys : List Char → Option Dict) (fuel : Nat) (env : ConfigEnv)
    (cfkw : CfgFileKw) (kw : Option Dict) (cfg cfg' : Dict)
    (h : config_init fsys fuel env cfkw kw cfg = some cfg') :
    truthy (lookupD cfg' "loaded") = true := by
  cases hts : truthy (lookupD cfg "loaded") with
  | true =>
    simp only [config_init, hts, if_true] at h
    cases h; exact hts
  | false =>
    simp only [config_init, hts, Bool.false_eq_true, if_false] at h
    cases hfold : (config_files env cfkw).foldlM
        (fun (c : Dict) (f : List Char) =>
          match fsys f with
          | some content => load_config fsys fuel c content "override_config"
          | none => none) cfg with
    | none => rw [hfold] at h; simp at h
    | some c =>
      rw [hfold] at h
      cases kw with
      | none =>
        simp only [Option.some.injEq] at h
        rw [← h, lookupD_setKey]; rfl
      | some d =>
        dsimp only [] at h
        cases hld : load_config fsys fuel c d "override_config" with
        | none => rw [hld] at h; simp at h
        | some c2 =>
          rw [hld] at h
          simp only [Option.some.injEq] at h
          rw [← h, lookupD_setKey]; rfl

theorem logging_init_initialized (ls : LogSetup) (st : LoggingState) :
    (logging_init ls st).initialized = true := by
  by_cases hi : st.initialized = true <;> cases hr : ls.root <;>
    simp [logging_init, hi, hr]

/-- C9: once a successful `config_init` has set the `loaded` flag, any
further `config_init` call (whatever its arguments) returns the config
unchanged, and once `logging_init` has set the `logging_initialized`
flag, any further `logging_init` call leaves the logging state (handlers
and levels) unchanged. -/
theorem config_logging_init_idempotent
    (fsys : List Char → Option Dict) (fuel : Nat) (env : ConfigEnv)
    (cfkw : CfgFileKw) (kw : Option Dict) (cfg cfg' : Dict)
    (h : config_init fsys fuel env cfkw kw cfg = some cfg') :
    (∀ fsys' fuel' env' cfkw' kw',
      config_init fsys' fuel' env' cfkw' kw' cfg' = some cfg')
    ∧ (∀ ls ls' st, logging_init ls' (logging_init ls st) = logging_init ls st) := by
  constructor
  · intro fsys' fuel' env' cfkw' kw'
    have hl := config_init_loaded fsys fuel env cfkw kw cfg cfg' h
    simp [config_init, hl]
  · intro ls ls' st
    generalize hx : logging_init ls st = x
    have hinit : x.initialized = true := hx ▸ logging_init_initialized ls st
    simp [logging_init, hinit]

/-- Filesystem for the C9 witness: only the packaged default config. -/
def fsysC9 : List Char → Option Dict := fun f =>
  if f = defaultConfigFile then some [("a", Val.vint 1)] else none

theorem config_logging_init_idempotent_witness :
    config_init fsysC9 1 ⟨false, false, none⟩ CfgFileKw.absent none [] =
      some [("a", Val.vint 1), ("loaded", Val.vbool true)]
    ∧ config_init fsysC9 1 ⟨false, false, none⟩ CfgFileKw.absent none
        [("a", Val.vint 1), ("loaded", Val.vbool true)] =
      some [("a", Val.vint 1), ("loaded", Val.vbool true)] := by
  have h1 : config_init fsysC9 1 ⟨false, false, none⟩ CfgFileKw.absent none [] =
      some [("a", Val.vint 1), ("loaded", Val.vbool true)] := by
    simp [config_init, config_files, fsysC9, load_config, dictUpdate, setKey, lookupD,
      truthy]
  exact ⟨h1,
    (config_logging_init_idempotent fsysC9 1 ⟨false, false, none⟩ CfgFileKw.absent none
      [] _ h1).1 fsysC9 1 ⟨false, false, none⟩ CfgFileKw.absent none⟩

/-! ## `CaseInsensitiveStringView.skip_string` (`discore/utils.py`, 679–690) -/

/-- The state of `discord.ext.commands.view.StringView` that
`skip_string` touches: the buffer and the `index` / `previous` cursors. -/
structure StringView where
  buffer : List Char
  index : Nat
  previous : Nat
deriving DecidableEq, Repr

/-- Python `str.lower()` as a character-wise case mapping. -/
def pyLower (s : List Char) : List Char := s.map Char.toLower

/-- `CaseInsensitiveStringView.skip_string(string)`: if the slice
`self.buffer[self.index : self.index + len(string)]` equals `string`
after lowering both, record `previous`, advance `index` by `len string`
and return `True`; otherwise return `False` without touching the view. -/
def skip_string (v : StringView) (s : List Char) : Bool × StringView :=
  let strlen := s.length
  if pyLower ((v.buffer.drop v.index).take strlen) = pyLower s then
    (true, { v with previous := v.index, index := v.index + strlen })
  else
    (false, v)

/-- C3: `skip_string` returns `True` exactly when the buffer slice at the
current index equals the target under case-insensitive comparison, in
which case the index advances by the target's length; otherwise it
returns `False` and the view (hence the index) is unchanged. -/
theorem skip_string_spec (v : StringView) (s : List Char) :
    ((skip_string v s).1 = true ↔
      pyLower ((v.buffer.drop v.index).take s.length) = pyLower s)
    ∧ ((skip_string v s).1 = true →
        (skip_string v s).2 =
          { v with previous := v.index, index := v.index + s.length })
    ∧ ((skip_string v s).1 = false → (skip_string v s).2 = v) := by
  by_cases h : pyLower ((v.buffer.drop v.index).take s.length) = pyLower s <;>
    simp [skip_string, h]

/-- View for the C3 witness. -/
def viewC3 : StringView := ⟨"!Ping hello".toList, 0, 0⟩

theorem skip_string_spec_witness :
    (skip_string viewC3 "!ping".toList).1 = true
    ∧ (skip_string viewC3 "!ping".toList).2.index = 5 := by
  have heq : pyLower ((viewC3.buffer.drop viewC3.index).take ("!ping".toList).length) =
      pyLower "!ping".toList := by rfl
  have h := skip_string_spec viewC3 "!ping".toList
  have ht := h.1.mpr heq
  refine ⟨ht, ?_⟩
  rw [h.2.1 ht]
  rfl

/-! ## `Bot._load_cogs` (`discore/bot.py`, lines 85–114) -/

/-- Python `str.title()` (ASCII behaviour): an alphabetic character is
uppercased when the previous character is not alphabetic, lowercased
otherwise; any other character passes through and resets the word state. -/
def pyTitleAux : Bool → List Char → List Char
  | _, [] => []
  | prevCased, c :: rest =>
    if c.isAlpha then
      (if prevCased then c.toLower else c.toUpper) :: pyTitleAux true rest
    else
      c :: pyTitleAux false rest

/-- Python `s.title()`. -/
def pyTitle (s : List Char) : List Char := pyTitleAux false s

/-- Python `s.endswith(suf)`. -/
def pyEndsWith (suf f : List Char) : Bool := suf.isSuffixOf f

/-- The `_load_cogs` loop over `os.listdir("cogs")`: a file not ending in
`".py"` is skipped (`continue`); a file `f` ending in `".py"` is imported
and registers exactly one cog, of class name `f[:-3].title()`.  The
result is `loaded_cogs`, the registered class names in listing order. -/
def load_cogs (files : List (List Char)) : List (List Char) :=
  files.foldl
    (fun acc f =>
      if pyEndsWith ".py".toList f then acc ++ [pyTitle (f.take (f.length - 3))]
      else acc) []

theorem load_cogs_foldl (files acc : List (List Char)) :
    files.foldl
      (fun acc f =>
        if pyEndsWith ".py".toList f then acc ++ [pyTitle (f.take (f.length - 3))]
        else acc) acc
    = acc ++ files.filterMap
        (fun f =>
          if pyEndsWith ".py".toList f then some (pyTitle (f.take (f.length - 3)))
          else none) := by
  induction files generalizing acc with
  | nil => simp
  | cons f rest ih =>
    cases hf : pyEndsWith ".py".toList f <;>
      simp only [List.foldl_cons, List.filterMap_cons, hf]
    · simpa using ih acc
    · simpa using ih (acc ++ [pyTitle (f.take (f.length - 3))])

/-- C6: `_load_cogs` registers exactly one cog per listed file ending in
`".py"` — the class named by the title-cased filename without its
extension — and nothing for any other file: the registered list is the
filter-map over the directory listing, and a name is registered iff some
`.py` file produces it. -/
theorem load_cogs_spec (files : List (List Char)) :
    load_cogs files = files.filterMap
      (fun f =>
        if pyEndsWith ".py".toList f then some (pyTitle (f.take (f.length - 3)))
        else none)
    ∧ (∀ name, name ∈ load_cogs files ↔
        ∃ f ∈ files, pyEndsWith ".py".toList f = true
          ∧ name = pyTitle (f.take (f.length - 3))) := by
  have hmain := load_cogs_foldl files []
  constructor
  · simpa [load_cogs] using hmain
  · intro name
    rw [load_cogs, hmain]
    simp only [List.nil_append, List.mem_filterMap]
    constructor
    · rintro ⟨f, hf, hcond⟩
      cases hsuf : pyEndsWith ".py".toList f
      · rw [hsuf] at hcond; simp at hcond
      · rw [hsuf] at hcond
        simp at hcond
        exact ⟨f, hf, hsuf, hcond.symm⟩
    · rintro ⟨f, hf, hsuf, hname⟩
      refine ⟨f, hf, ?_⟩
      rw [hsuf]
      simp [hname]

/-! ## `Bot.handle_error` (`discore/bot.py`, lines 372–447)

Exceptions are modelled one leaf class per constructor; the `discord.py`
subclass facts the code relies on are `HybridCommandError <:
CommandInvokeError` (both carry an `original` exception) and the
disjointness of the remaining checked classes. -/

/-- The exception classes `Bot.handle_error` distinguishes (plus the
inner classes it inspects through `error.original`). -/
inductive Exc where
  | hybridCommandError : Exc → Exc
  | commandInvokeError : Exc → Exc
  | appCommandInvokeError : Exc → Exc
  | commandNotFound : Exc
  | conversionError : Exc
  | badArgument : Exc
  | missingRequiredArgument : Exc
  | botMissingPermissions : Exc
  | notOwner : Exc
  | missingPermissions : Exc
  | commandOnCooldown : Exc
  | invalidEndOfQuotedString : Exc
  | expectedClosingQuote : Exc
  | privateMessageOnly : Exc
  | noPrivateMessage : Exc
  | forbidden : Exc
  | notFoundHttp : Exc
  | serverDisconnected : Exc
  | discordServerError : Exc
  | clientOSError : Exc
  | otherError : Exc
deriving DecidableEq, Repr

/-- `isinstance(e, commands.CommandInvokeError)` (true for the
`HybridCommandError` subclass as well). -/
def isCommandInvokeError : Exc → Bool
  | .commandInvokeError _ => true
  | .hybridCommandError _ => true
  | _ => false

/-- `isinstance(e, discord.app_commands.CommandInvokeError)`. -/
def isAppCommandInvokeError : Exc → Bool
  | .appCommandInvokeError _ => true
  | _ => false

/-- `e.original` for the wrapper classes. -/
def originalOf : Exc → Option Exc
  | .commandInvokeError o => some o
  | .hybridCommandError o => some o
  | .appCommandInvokeError o => some o
  | _ => none

/-- The localized reply keys `handle_error` can choose. -/
inductive ReplyKey where
  | bad_argument : ReplyKey
  | missing_argument : ReplyKey
  | bot_missing_permission : ReplyKey
  | not_found : ReplyKey
  | user_missing_permission : ReplyKey
  | on_cooldown : ReplyKey
  | invalid_quoted_string : ReplyKey
  | private_message_only : ReplyKey
  | no_private_message : ReplyKey
deriving DecidableEq, Repr

/-- The observable outcome of one `handle_error` call: the reply sent to
the user (if any), and which of the logging paths ran — the
server-disconnection warning, the `log_command_error` audit path, the
unhandled-error log, and the final `command cancelled` info line. -/
structure HandleOutcome where
  reply : Option ReplyKey
  warned : Bool
  audited : Bool
  errorLogged : Bool
  cancelledInfo : Bool
deriving DecidableEq, Repr

/-- The body of `Bot.handle_error` after the initial
`HybridCommandError` unwrap; `lc` is `config.log.commands`. -/
def classify (lc : Bool) (e : Exc) : HandleOutcome :=
  if e = .commandNotFound then ⟨none, false, false, false, false⟩
  else if e = .conversionError ∨ e = .badArgument then
    ⟨some .bad_argument, false, false, false, lc⟩
  else if e = .missingRequiredArgument then
    ⟨some .missing_argument, false, false, false, lc⟩
  else if (isCommandInvokeError e ∧ originalOf e = some .forbidden)
      ∨ e = .botMissingPermissions then
    ⟨some .bot_missing_permission, false, false, false, lc⟩
  else if isCommandInvokeError e ∧ originalOf e = some .notFoundHttp then
    ⟨some .not_found, false, false, false, lc⟩
  else if e = .notOwner ∨ e = .missingPermissions then
    ⟨some .user_missing_permission, false, false, false, lc⟩
  else if e = .commandOnCooldown then
    ⟨some .on_cooldown, false, false, false, lc⟩
  else if e = .invalidEndOfQuotedString ∨ e = .expectedClosingQuote then
    ⟨some .invalid_quoted_string, false, false, false, lc⟩
  else if e = .privateMessageOnly then
    ⟨some .private_message_only, false, false, false, lc⟩
  else if e = .noPrivateMessage then
    ⟨some .no_private_message, false, false, false, lc⟩
  else if isCommandInvokeError e
      ∧ (originalOf e = some .serverDisconnected
         ∨ originalOf e = some .discordServerError
         ∨ originalOf e = some .clientOSError) then
    ⟨none, lc, false, false, false⟩
  else if isCommandInvokeError e ∨ isAppCommandInvokeError e then
    ⟨none, false, true, false, false⟩
  else
    ⟨none, false, false, true, false⟩

/-- The initial unwrap: `if isinstance(error, commands.HybridCommandError):
error = error.original`. -/
def unwrapHybrid : Exc → Exc
  | .hybridCommandError o => o
  | e => e

/-- `Bot.handle_error(ctx, error)`. -/
def handle_error (lc : Bool) (e : Exc) : HandleOutcome :=
  classify lc (unwrapHybrid e)

/-- C4 counterexample: the claim routes every `CommandInvokeError` to the
audit/error logging path with no classified reply, but
`CommandInvokeError(original=discord.Forbidden)` is answered with the
`bot_missing_permission` reply and is not audited. -/
theorem handle_error_invoke_error_replies :
    ¬ ((handle_error true (Exc.commandInvokeError Exc.forbidden)).reply = none
       ∧ (handle_error true (Exc.commandInvokeError Exc.forbidden)).audited = true) := by
  decide

/-- C4 (amended): `handle_error` first unwraps `HybridCommandError`,
returns silently on `CommandNotFound`, selects the localized reply by the
exception's class — `bad_argument` for `ConversionError`/`BadArgument`,
`missing_argument` for `MissingRequiredArgument`, `on_cooldown` for
`CommandOnCooldown`, and so on — where `CommandInvokeError` wrapping
`discord.Forbidden` gets `bot_missing_permission`, wrapping
`discord.NotFound` gets `not_found`, wrapping a server-disconnection
error is logged as a warning, and any other (app-)`CommandInvokeError`
goes to the audit path while unrecognized errors go to the
unhandled-error log, both without a classified reply. -/
theorem handle_error_classification (lc : Bool) :
    (∀ e, handle_error lc (.hybridCommandError e) = classify lc e)
    ∧ handle_error lc .commandNotFound = ⟨none, false, false, false, false⟩
    ∧ handle_error lc .conversionError = ⟨some .bad_argument, false, false, false, lc⟩
    ∧ handle_error lc .badArgument = ⟨some .bad_argument, false, false, false, lc⟩
    ∧ handle_error lc .missingRequiredArgument
        = ⟨some .missing_argument, false, false, false, lc⟩
    ∧ handle_error lc .botMissingPermissions
        = ⟨some .bot_missing_permission, false, false, false, lc⟩
    ∧ handle_error lc (.commandInvokeError .forbidden)
        = ⟨some .bot_missing_permission, false, false, false, lc⟩
    ∧ handle_error lc (.commandInvokeError .notFoundHttp)
        = ⟨some .not_found, false, false, false, lc⟩
    ∧ handle_error lc .notOwner = ⟨some .user_missing_permission, false, false, false, lc⟩
    ∧ handle_error lc .missingPermissions
        = ⟨some .user_missing_permission, false, false, false, lc⟩
    ∧ handle_error lc .commandOnCooldown = ⟨some .on_cooldown, false, false, false, lc⟩
    ∧ handle_error lc .invalidEndOfQuotedString
        = ⟨some .invalid_quoted_string, false, false, false, lc⟩
    ∧ handle_error lc .expectedClosingQuote
        = ⟨some .invalid_quoted_string, false, false, false, lc⟩
    ∧ handle_error lc .privateMessageOnly
        = ⟨some .private_message_only, false, false, false, lc⟩
    ∧ handle_error lc .noPrivateMessage
        = ⟨some .no_private_message, false, false, false, lc⟩
    ∧ handle_error lc (.commandInvokeError .serverDisconnected) = ⟨none, lc, false, false, false⟩
    ∧ handle_error lc (.commandInvokeError .discordServerError) = ⟨none, lc, false, false, false⟩
    ∧ handle_error lc (.commandInvokeError .clientOSError) = ⟨none, lc, false, false, false⟩
    ∧ handle_error lc (.commandInvokeError .otherError) = ⟨none, false, true, false, false⟩
    ∧ (∀ e, handle_error lc (.appCommandInvokeError e) = ⟨none, false, true, false, false⟩)
    ∧ handle_error lc .otherError = ⟨none, false, false, true, false⟩ := by
  cases lc
  · refine ⟨fun e => rfl, ?_⟩
    repeat' constructor
    all_goals first
      | rfl
      | (intro e
         cases e <;> rfl)
  · refine ⟨fun e => rfl, ?_⟩
    repeat' constructor
    all_goals first
      | rfl
      | (intro e
         cases e <;> rfl)

/-! ## `sanitize` (`discore/utils.py`, lines 468–486) -/

/-- The backtick character (written via its code point). -/
def btick : Char := Char.ofNat 96

/-- Python `text.replace(three backticks, three quotes)`: scan left to
right, replacing non-overlapping occurrences. -/
def replaceTicks : List Char → List Char
  | [] => []
  | [c] => [c]
  | [c1, c2] => [c1, c2]
  | c1 :: c2 :: c3 :: rest =>
    if c1 = btick ∧ c2 = btick ∧ c3 = btick then
      '\'' :: '\'' :: '\'' :: replaceTicks rest
    else
      c1 :: replaceTicks (c2 :: c3 :: rest)
termination_by l => l.length
decreasing_by all_goals (simp_wf; try omega)

/-- Python `text.replace("\n", "\\n")` (newline to the two characters
backslash and `n`). -/
def replaceNewline : List Char → List Char
  | [] => []
  | c :: rest =>
    if c = '\n' then '\\' :: 'n' :: replaceNewline rest
    else c :: replaceNewline rest

/-- `sanitize(text, limit, crop_at_end, replace_newline)`: replace triple
backticks by triple quotes, optionally escape newlines, then crop to the
limit, replacing the cropped end (or start) by an ellipsis. -/
def sanitize (text : List Char) (limit : Nat) (crop_at_end replace_newline : Bool) :
    List Char :=
  let s := replaceTicks text
  let s2 := if replace_newline then replaceNewline s else s
  if s2.length > limit then
    if crop_at_end then s2.take (limit - 3) ++ "...".toList
    else "...".toList ++ s2.drop (s2.length - limit + 3)
  else s2

/-- Whether three consecutive backticks occur anywhere in the string. -/
def hasTriple : List Char → Bool
  | [] => false
  | [_] => false
  | [_, _] => false
  | c1 :: c2 :: c3 :: rest =>
    (c1 = btick && c2 = btick && c3 = btick) || hasTriple (c2 :: c3 :: rest)

/-- The number of leading backticks. -/
def leadTicks : List Char → Nat
  | [] => 0
  | c :: rest => if c = btick then leadTicks rest + 1 else 0

theorem hasTriple_cons (c : Char) (l : List Char) :
    hasTriple (c :: l) = false ↔
      hasTriple l = false ∧ (c = btick → leadTicks l ≤ 1) := by
  match l with
  | [] => simp [hasTriple, leadTicks]
  | [x] =>
    by_cases hx : x = btick <;> simp [hasTriple, leadTicks, hx]
  | x :: y :: rest =>
    by_cases hx : x = btick <;> by_cases hy : y = btick <;> by_cases hc : c = btick <;>
      simp [hasTriple, leadTicks, hx, hy, hc] <;> omega

theorem hasTriple_cons_ne (c : Char) (l : List Char) (h : ¬ c = btick) :
    hasTriple (c :: l) = hasTriple l := by
  match l with
  | [] => simp [hasTriple]
  | [x] => simp [hasTriple]
  | x :: y :: rest => simp [hasTriple, h]

theorem leadTicks_replaceTicks (l : List Char) :
    leadTicks (replaceTicks l) = if 3 ≤ leadTicks l then 0 else leadTicks l := by
  induction l using replaceTicks.induct with
  | case1 => simp [replaceTicks, leadTicks]
  | case2 c =>
    by_cases hc : c = btick <;> simp [replaceTicks, leadTicks, hc]
  | case3 c1 c2 =>
    by_cases h1 : c1 = btick <;> by_cases h2 : c2 = btick <;>
      simp [replaceTicks, leadTicks, h1, h2] <;> omega
  | case4 c1 c2 c3 rest h ih =>
    obtain ⟨h1, h2, h3⟩ := h
    rw [replaceTicks]
    simp only [h1, h2, h3, and_self, if_true]
    have hq : ¬ ('\'' : Char) = btick := by decide
    simp [leadTicks, hq, h1, h2, h3]
  | case5 c1 c2 c3 rest h ih =>
    rw [replaceTicks]
    rw [if_neg h]
    by_cases h1 : c1 = btick
    · have ht : leadTicks (c2 :: c3 :: rest) ≤ 1 := by
        by_cases h2 : c2 = btick
        · have h3 : ¬ c3 = btick := fun hc3 => h ⟨h1, h2, hc3⟩
          simp [leadTicks, h2, h3]
        · simp [leadTicks, h2]
      have hlhs : leadTicks (c1 :: replaceTicks (c2 :: c3 :: rest))
          = leadTicks (c2 :: c3 :: rest) + 1 := by
        rw [leadTicks.eq_2, if_pos h1, ih, if_neg (by omega)]
      have hrhs : leadTicks (c1 :: c2 :: c3 :: rest)
          = leadTicks (c2 :: c3 :: rest) + 1 := by
        rw [leadTicks.eq_2, if_pos h1]
      rw [hlhs, hrhs, if_neg (by omega)]
    · simp [leadTicks, h1]

theorem hasTriple_replaceTicks (l : List Char) :
    hasTriple (replaceTicks l) = false := by
  induction l using replaceTicks.induct with
  | case1 => simp [replaceTicks, hasTriple]
  | case2 c => simp [replaceTicks, hasTriple]
  | case3 c1 c2 => simp [replaceTicks, hasTriple]
  | case4 c1 c2 c3 rest h ih =>
    obtain ⟨h1, h2, h3⟩ := h
    rw [replaceTicks]
    simp only [h1, h2, h3, and_self, if_true]
    have hq : ¬ ('\'' : Char) = btick := by decide
    rw [hasTriple_cons_ne _ _ hq, hasTriple_cons_ne _ _ hq, hasTriple_cons_ne _ _ hq]
    exact ih
  | case5 c1 c2 c3 rest h ih =>
    rw [replaceTicks]
    rw [if_neg h]
    by_cases h1 : c1 = btick
    · refine (hasTriple_cons c1 _).mpr ⟨ih, fun _ => ?_⟩
      rw [leadTicks_replaceTicks]
      have hlt : leadTicks (c2 :: c3 :: rest) ≤ 1 := by
        by_cases h2 : c2 = btick
        · have h3 : ¬ c3 = btick := fun hc3 => h ⟨h1, h2, hc3⟩
          simp [leadTicks, h2, h3]
        · simp [leadTicks, h2]
      split <;> omega
    · rw [hasTriple_cons_ne _ _ h1]
      exact ih

theorem leadTicks_replaceNewline (l : List Char) :
    leadTicks (replaceNewline l) = leadTicks l := by
  induction l with
  | nil => rfl
  | cons c rest ih =>
    by_cases hn : c = '\n'
    · have hb : ¬ ('\n' : Char) = btick := by decide
      have hb2 : ¬ ('\\' : Char) = btick := by decide
      simp [replaceNewline, leadTicks, hn, hb, hb2]
    · by_cases hc : c = btick <;> simp [replaceNewline, leadTicks, hn, hc, ih]

theorem hasTriple_replaceNewline (l : List Char) (h : hasTriple l = false) :
    hasTriple (replaceNewline l) = false := by
  induction l with
  | nil => simpa using h
  | cons c rest ih =>
    have h' := (hasTriple_cons c rest).mp h
    by_cases hn : c = '\n'
    · have hb2 : ¬ ('\\' : Char) = btick := by decide
      have hbn : ¬ ('n' : Char) = btick := by decide
      rw [replaceNewline, if_pos hn, hasTriple_cons_ne _ _ hb2, hasTriple_cons_ne _ _ hbn]
      exact ih h'.1
    · rw [replaceNewline, if_neg hn]
      by_cases hc : c = btick
      · exact (hasTriple_cons c _).mpr
          ⟨ih h'.1, fun _ => by rw [leadTicks_replaceNewline]; exact h'.2 hc⟩
      · rw [hasTriple_cons_ne _ _ hc]
        exact ih h'.1

theorem leadTicks_take (n : Nat) (l : List Char) : leadTicks (l.take n) ≤ leadTicks l := by
  induction l generalizing n with
  | nil => simp [leadTicks]
  | cons c rest ih =>
    cases n with
    | zero => simp [leadTicks]
    | succ m =>
      rw [List.take_succ_cons]
      by_cases hc : c = btick
      · rw [leadTicks, if_pos hc, leadTicks, if_pos hc]
        exact Nat.succ_le_succ (ih m)
      · rw [leadTicks, if_neg hc, leadTicks, if_neg hc]

theorem hasTriple_take (n : Nat) (l : List Char) (h : hasTriple l = false) :
    hasTriple (l.take n) = false := by
  induction l generalizing n with
  | nil => cases n <;> simpa using h
  | cons c rest ih =>
    cases n with
    | zero => simp [hasTriple]
    | succ m =>
      rw [List.take_succ_cons]
      have h' := (hasTriple_cons c rest).mp h
      exact (hasTriple_cons c (rest.take m)).mpr
        ⟨ih m h'.1, fun hc => le_trans (leadTicks_take m rest) (h'.2 hc)⟩

theorem hasTriple_drop (n : Nat) (l : List Char) (h : hasTriple l = false) :
    hasTriple (l.drop n) = false := by
  induction l generalizing n with
  | nil => cases n <;> simpa using h
  | cons c rest ih =>
    cases n with
    | zero => simpa using h
    | succ m =>
      rw [List.drop_succ_cons]
      exact ih m ((hasTriple_cons c rest).mp h).1

theorem leadTicks_append (a b : List Char) :
    leadTicks (a ++ b) ≤ leadTicks a + leadTicks b := by
  induction a with
  | nil => simp [leadTicks]
  | cons c rest ih =>
    by_cases hc : c = btick
    · rw [List.cons_append, leadTicks, if_pos hc, leadTicks, if_pos hc]
      omega
    · rw [List.cons_append, leadTicks, if_neg hc]
      omega

theorem hasTriple_no_ticks (b : List Char) (hb : ∀ c ∈ b, ¬ c = btick) :
    hasTriple b = false ∧ leadTicks b = 0 := by
  induction b with
  | nil => simp [hasTriple, leadTicks]
  | cons c rest ih =>
    have hc := hb c (List.mem_cons_self c rest)
    have ih' := ih fun x hx => hb x (List.mem_cons_of_mem _ hx)
    rw [hasTriple_cons_ne c rest hc]
    exact ⟨ih'.1, by simp [leadTicks, hc]⟩

theorem hasTriple_append_no_ticks (a b : List Char) (ha : hasTriple a = false)
    (hb : ∀ c ∈ b, ¬ c = btick) : hasTriple (a ++ b) = false := by
  induction a with
  | nil => simpa using (hasTriple_no_ticks b hb).1
  | cons c rest ih =>
    have h' := (hasTriple_cons c rest).mp ha
    rw [List.cons_append]
    refine (hasTriple_cons c (rest ++ b)).mpr ⟨ih h'.1, fun hc => ?_⟩
    have h1 := leadTicks_append rest b
    have h2 := (hasTriple_no_ticks b hb).2
    have h3 := h'.2 hc
    omega

theorem hasTriple_dots_prepend (x : List Char) (h : hasTriple x = false) :
    hasTriple ('.' :: '.' :: '.' :: x) = false := by
  have hd : ¬ ('.' : Char) = btick := by decide
  rw [hasTriple_cons_ne _ _ hd, hasTriple_cons_ne _ _ hd, hasTriple_cons_ne _ _ hd]
  exact h

/-- C8: for every text and every limit of at least 3, `sanitize` returns
a string of length at most the limit containing no three consecutive
backticks: the backtick runs are rewritten to quotes before cropping,
and cropping only removes characters and attaches an ellipsis. -/
theorem sanitize_spec (text : List Char) (limit : Nat) (cae rn : Bool)
    (h3 : 3 ≤ limit) :
    (sanitize text limit cae rn).length ≤ limit
    ∧ hasTriple (sanitize text limit cae rn) = false := by
  simp only [sanitize]
  set s := if rn = true then replaceNewline (replaceTicks text) else replaceTicks text
    with hsdef
  have hs : hasTriple s = false := by
    rw [hsdef]; cases rn
    · simpa using hasTriple_replaceTicks text
    · simpa using hasTriple_replaceNewline _ (hasTriple_replaceTicks text)
  have hdots : ("...".toList).length = 3 := rfl
  by_cases hlen : s.length > limit
  · rw [if_pos hlen]
    cases cae
    · rw [if_neg (by simp)]
      constructor
      · simp only [List.length_append, List.length_drop, hdots]
        omega
      · exact hasTriple_dots_prepend _ (hasTriple_drop _ _ hs)
    · rw [if_pos (show (true : Bool) = true from rfl)]
      constructor
      · simp only [List.length_append, List.length_take, hdots]
        omega
      · exact hasTriple_append_no_ticks _ _ (hasTriple_take _ _ hs) (by decide)
  · rw [if_neg hlen]
    exact ⟨by omega, hs⟩

theorem sanitize_spec_witness :
    (sanitize ("a".toList ++ [btick, btick, btick] ++ "b".toList) 4 true true).length ≤ 4
    ∧ hasTriple (sanitize ("a".toList ++ [btick, btick, btick] ++ "b".toList) 4 true true)
        = false :=
  sanitize_spec ("a".toList ++ [btick, btick, btick] ++ "b".toList) 4 true true (by decide)

/-! ## `log_data` (`discore/utils.py`, lines 536–599) -/

/-- Python `d[key] = v` for string-valued context dictionaries. -/
def setEntry : List (String × String) → String → String → List (String × String)
  | [], key, v => [(key, v)]
  | (k, w) :: rest, key, v =>
    if k = key then (k, v) :: rest else (k, w) :: setEntry rest key v

/-- The exceptions `log_data`'s own control flow can let escape: the
`IndexError` of `tb.extract_tb(...)[-1]` on a frameless traceback, and
an `HTTPException` propagating from the unguarded `channel.send`. -/
inductive PyExc where
  | indexError : PyExc
  | httpException : PyExc
deriving DecidableEq, Repr

/-- The `exc_info` argument of `log_data`: a boolean, or an explicit
`(type, value, traceback)` triple carried as the error class name, the
error description, the formatted traceback text (the join of
`format_tb` and `format_exception_only`, produced by the external
`traceback` module) and the traceback frames as (filename, line)
pairs. -/
inductive ExcInfoArg where
  | boolArg : Bool → ExcInfoArg
  | tupleArg : String → String → List Char → List (String × Int) → ExcInfoArg

/-- `if exc_info is True: exc_info = sys.exc_info()` followed by the
`if exc_info:` truthiness test.  `ambientExc` models `sys.exc_info()`:
`none` is the `(None, None, None)` of no active exception — which, being
a 3-tuple, is still truthy.  The result is `none` for a falsy
`exc_info` (the branch is skipped), `some none` for the truthy
`(None, None, None)`, and `some (some t)` for a real triple. -/
def resolvedExc (excInfoArg : ExcInfoArg)
    (ambientExc : Option (String × String × List Char × List (String × Int))) :
    Option (Option (String × String × List Char × List (String × Int))) :=
  match excInfoArg with
  | .boolArg true => some ambientExc
  | .boolArg false => none
  | .tupleArg n d t fs => some (some (n, d, t, fs))

/-- Whether the `if exc_info:` branch completes without raising: the
resolved `exc_info` is falsy, or it carries at least one traceback
frame for `tb.extract_tb(...)[-1]` to return. -/
def excBranchOk (excInfoArg : ExcInfoArg)
    (ambientExc : Option (String × String × List Char × List (String × Int))) : Bool :=
  match resolvedExc excInfoArg ambientExc with
  | none => true
  | some none => false
  | some (some (_, _, _, frames)) => !frames.isEmpty

/-- The observable outcome of one `log_data` call: the payload handed to
`logger.log` (`none` when the call raised before reaching the logger),
the "channel not found" error log, the text sent to the log channel
along with the embed (`none` when nothing was sent), and the exception
that escaped (`none` for a normal return). -/
structure LogDataResult where
  consoleMessage : Option (String × List (String × String))
  resolveError : Bool
  channelSend : Option (List Char)
  raised : Option PyExc
deriving Repr

/-- The tail of `log_data` after `logger.log`: return if
`config.log.channel` is falsy; resolve it via `bot.get_channel` and log
an error when unresolved; otherwise `await channel.send(traceback,
embed)`, whose failure (`sendOk = false`) propagates. -/
def logDataChannelStep (message : String) (data' : List (String × String))
    (traceback : List Char) (channelCfg : Option Int) (resolve : Int → Bool)
    (sendOk : Bool) : LogDataResult :=
  match channelCfg with
  | none => ⟨some (message, data'), false, none, none⟩
  | some ch =>
    if ch = 0 then ⟨some (message, data'), false, none, none⟩
    else if resolve ch then
      (if sendOk then ⟨some (message, data'), false, some traceback, none⟩
       else ⟨some (message, data'), false, none, some PyExc.httpException⟩)
    else ⟨some (message, data'), true, none, none⟩

/-- `log_data(bot, message, data, logger, level, exc_info)`: resolve
`exc_info`; set the date entry; when the resolved `exc_info` is truthy,
take the last traceback frame (`IndexError` when there is none — in
particular for the `(None, None, None)` of the `exc_info=True` default
with no active exception), add the file/line/error/description entries
and build the code-fenced, sanitized traceback text; then log through
the logger and run the channel step.  `resolve` abstracts
`bot.get_channel`, `sendOk` the outcome of `channel.send`, `date` the
formatted current date. -/
def log_data
    (ambientExc : Option (String × String × List Char × List (String × Int)))
    (channelCfg : Option Int) (resolve : Int → Bool) (sendOk : Bool)
    (message : String) (data : List (String × String)) (date : String)
    (excInfoArg : ExcInfoArg) : LogDataResult :=
  let dataDated := setEntry data "Date" date
  let step1 : Option (List (String × String) × List Char) :=
    match resolvedExc excInfoArg ambientExc with
    | none => some (dataDated, message.toList)
    | some none => none
    | some (some (errName, errDesc, tbText, frames)) =>
      match frames.getLast? with
      | none => none
      | some (fname, line) =>
        let d := setEntry dataDated "File" fname
        let d := setEntry d "Line" (toString line)
        let d := setEntry d "Error" errName
        let d := setEntry d "Description" errDesc
        some (d, [btick, btick, btick] ++ ['\n']
          ++ sanitize tbText 1992 true false ++ ['\n'] ++ [btick, btick, btick])
  match step1 with
  | none => ⟨none, false, none, some PyExc.indexError⟩
  | some (data', traceback) =>
    logDataChannelStep message data' traceback channelCfg resolve sendOk

/-- C5 counterexample: with the default `exc_info=True` and no active
exception, `sys.exc_info()` is the truthy `(None, None, None)`, so
`tb.extract_tb(None)[-1]` raises `IndexError` before `logger.log` runs:
at this input `log_data` emits nothing to the logger and raises instead
of returning normally. -/
theorem log_data_default_exc_raises :
    (log_data none (some 5) (fun _ => true) true "boom" [] "2026-10-12"
       (ExcInfoArg.boolArg true)).consoleMessage = none
    ∧ (log_data none (some 5) (fun _ => true) true "boom" [] "2026-10-12"
       (ExcInfoArg.boolArg true)).raised = some PyExc.indexError :=
  ⟨rfl, rfl⟩

theorem logDataChannelStep_spec (message : String) (data' : List (String × String))
    (traceback : List Char) (channelCfg : Option Int) (resolve : Int → Bool)
    (sendOk : Bool) :
    (logDataChannelStep message data' traceback channelCfg resolve sendOk).consoleMessage
      = some (message, data')
    ∧ ((logDataChannelStep message data' traceback channelCfg resolve sendOk).channelSend.isSome
        = true ↔
        ∃ ch, channelCfg = some ch ∧ ch ≠ 0 ∧ resolve ch = true ∧ sendOk = true)
    ∧ ((logDataChannelStep message data' traceback channelCfg resolve sendOk).raised
        = some PyExc.httpException ↔
        ∃ ch, channelCfg = some ch ∧ ch ≠ 0 ∧ resolve ch = true ∧ sendOk = false)
    ∧ ((logDataChannelStep message data' traceback channelCfg resolve sendOk).raised = none
       ∨ (logDataChannelStep message data' traceback channelCfg resolve sendOk).raised
          = some PyExc.httpException)
    ∧ (∀ ch, channelCfg = some ch → ch ≠ 0 → resolve ch = false →
        (logDataChannelStep message data' traceback channelCfg resolve sendOk).resolveError
          = true
        ∧ (logDataChannelStep message data' traceback channelCfg resolve sendOk).channelSend
          = none
        ∧ (logDataChannelStep message data' traceback channelCfg resolve sendOk).raised
          = none) := by
  rcases channelCfg with _ | ch
  · simp [logDataChannelStep]
  · by_cases h0 : ch = 0
    · simp [logDataChannelStep, h0]
    · cases hr : resolve ch <;> cases hs : sendOk <;>
        simp [logDataChannelStep, h0, hr, hs]

/-- C5 (amended): `log_data` emits the message with its contextual data
to the logger and returns normally exactly on the non-raising paths:
when the resolved `exc_info` is falsy or carries a traceback frame, the
message and data always reach the logger, the channel embed is sent iff
`config.log.channel` is truthy, the client resolves the channel and the
send succeeds, and a truthy-but-unresolvable channel id logs an error
and sends nothing while returning normally; but when the resolved
`exc_info` is the `(None, None, None)` of no active exception (the
`exc_info=True` default outside an exception handler) or a frameless
traceback, `log_data` raises `IndexError` before emitting anything, and
a failing `channel.send` raises after the console emission. -/
theorem log_data_spec
    (ambientExc : Option (String × String × List Char × List (String × Int)))
    (channelCfg : Option Int) (resolve : Int → Bool) (sendOk : Bool)
    (message : String) (data : List (String × String)) (date : String)
    (excInfoArg : ExcInfoArg) :
    (excBranchOk excInfoArg ambientExc = false →
      log_data ambientExc channelCfg resolve sendOk message data date excInfoArg =
        ⟨none, false, none, some PyExc.indexError⟩)
    ∧ (excBranchOk excInfoArg ambientExc = true →
        (∃ d', (log_data ambientExc channelCfg resolve sendOk message data date
            excInfoArg).consoleMessage = some (message, d'))
        ∧ ((log_data ambientExc channelCfg resolve sendOk message data date
            excInfoArg).channelSend.isSome = true ↔
            ∃ ch, channelCfg = some ch ∧ ch ≠ 0 ∧ resolve ch = true ∧ sendOk = true)
        ∧ ((log_data ambientExc channelCfg resolve sendOk message data date
            excInfoArg).raised = some PyExc.httpException ↔
            ∃ ch, channelCfg = some ch ∧ ch ≠ 0 ∧ resolve ch = true ∧ sendOk = false)
        ∧ ((log_data ambientExc channelCfg resolve sendOk message data date
            excInfoArg).raised = none
           ∨ (log_data ambientExc channelCfg resolve sendOk message data date
              excInfoArg).raised = some PyExc.httpException)
        ∧ (∀ ch, channelCfg = some ch → ch ≠ 0 → resolve ch = false →
            (log_data ambientExc channelCfg resolve sendOk message data date
              excInfoArg).resolveError = true
            ∧ (log_data ambientExc channelCfg resolve sendOk message data date
              excInfoArg).channelSend = none
            ∧ (log_data ambientExc channelCfg resolve sendOk message data date
              excInfoArg).raised = none)) := by
  cases hres : resolvedExc excInfoArg ambientExc with
  | none =>
    constructor
    · intro hfalse
      rw [excBranchOk, hres] at hfalse
      cases hfalse
    · intro _
      simp only [log_data, hres]
      have h := logDataChannelStep_spec message (setEntry data "Date" date)
        message.toList channelCfg resolve sendOk
      exact ⟨⟨_, h.1⟩, h.2.1, h.2.2.1, h.2.2.2.1, h.2.2.2.2⟩
  | some o =>
    cases o with
    | none =>
      constructor
      · intro _
        simp only [log_data, hres]
      · intro htrue
        rw [excBranchOk, hres] at htrue
        cases htrue
    | some t =>
      obtain ⟨n, d, tx, fs⟩ := t
      cases hlast : fs.getLast? with
      | none =>
        have hnil : fs = [] := List.getLast?_eq_none_iff.mp hlast
        constructor
        · intro _
          simp only [log_data, hres, hlast]
        · intro htrue
          rw [excBranchOk, hres, hnil] at htrue
          simp at htrue
      | some fr =>
        obtain ⟨fname, line⟩ := fr
        constructor
        · intro hfalse
          rw [excBranchOk, hres] at hfalse
          have : fs = [] := by
            cases fs with
            | nil => rfl
            | cons a l => simp at hfalse
          rw [this] at hlast
          cases hlast
        · intro _
          simp only [log_data, hres, hlast]
          have h := logDataChannelStep_spec message
            (setEntry (setEntry (setEntry (setEntry (setEntry data "Date" date)
              "File" fname) "Line" (toString line)) "Error" n) "Description" d)
            ([btick, btick, btick] ++ ['\n'] ++ sanitize tx 1992 true false
              ++ ['\n'] ++ [btick, btick, btick]) channelCfg resolve sendOk
          exact ⟨⟨_, h.1⟩, h.2.1, h.2.2.1, h.2.2.2.1, h.2.2.2.2⟩

theorem log_data_spec_witness :
    excBranchOk (ExcInfoArg.boolArg false) none = true
    ∧ (log_data none (some 5) (fun _ => true) true "boom" [] "2026-10-12"
        (ExcInfoArg.boolArg false)).channelSend.isSome = true := by
  have h := (log_data_spec none (some 5) (fun _ => true) true "boom" [] "2026-10-12"
    (ExcInfoArg.boolArg false)).2 rfl
  exact ⟨rfl, h.2.1.mpr ⟨5, rfl, by decide, rfl, rfl⟩⟩

/-! ## `HelpHybridCommand.filter_commands` (`discore/help.py`, 333–418) -/

/-- The attributes of a command that `filter_commands` inspects.  Text
commands (`commands.Command`) carry `hidden` and the outcome of the
framework's `can_run`; app commands carry the checks/binding structure
and the outcome of `_check_can_run` (`getattr(c, 'hidden', None)` is
falsy for them).  The two framework coroutine outcomes are abstracted
into the single boolean `canRun` (`False` also models a raised
check-failure, which the code turns into `False`). -/
structure Cmd where
  name : String
  isTextCommand : Bool
  hidden : Bool
  canRun : Bool
  hasChecks : Bool
  parentIsNotBinding : Bool
  bindingHasInteractionCheck : Bool
deriving DecidableEq, Repr

/-- The `predicate` coroutine inside `filter_commands`. -/
def cmdPredicate (hasInteraction : Bool) (c : Cmd) : Bool :=
  if c.isTextCommand then c.canRun
  else if !c.hasChecks && !hasInteraction then
    if c.parentIsNotBinding then false
    else if c.bindingHasInteractionCheck then false
    else true
  else if !hasInteraction then false
  else c.canRun

/-- Python `sorted(l, key=k)` / `l.sort(key=k)`: stable ascending sort by
key. -/
def pySortByKey (k : Cmd → String) (l : List Cmd) : List Cmd :=
  l.mergeSort fun a b => decide (k a ≤ k b)

/-- `filter_commands(commands, sort=..., key=...)`: default the key to the
command name when sorting (the key is only consulted when sorting, so the
`getD` default is exactly the `if sort and key is None` assignment);
drop hidden commands unless `show_hidden`; skip the check verification
when `verify_checks` is `False`, or `None` outside a guild; otherwise
keep only the commands passing `predicate`; sort the result on demand. -/
def filter_commands (show_hidden : Bool) (verify_checks : Option Bool)
    (ctxGuild hasInteraction : Bool) (cmds : List Cmd) (sort : Bool)
    (key : Option (Cmd → String)) : List Cmd :=
  let k := key.getD fun c => c.name
  let iterator := if show_hidden then cmds else cmds.filter fun c => !c.hidden
  match verify_checks with
  | some false => if sort then pySortByKey k iterator else iterator
  | none =>
    if ctxGuild = false then (if sort then pySortByKey k iterator else iterator)
    else
      (let ret := iterator.filter (cmdPredicate hasInteraction)
       if sort then pySortByKey k ret else ret)
  | some true =>
    let ret := iterator.filter (cmdPredicate hasInteraction)
    if sort then pySortByKey k ret else ret

theorem mem_of_mem_sortIf (sort : Bool) (k : Cmd → String) (X : List Cmd) (c : Cmd)
    (hc : c ∈ (if sort then pySortByKey k X else X)) : c ∈ X := by
  cases sort
  · simpa using hc
  · simpa [pySortByKey] using hc

theorem filter_commands_subset (sh : Bool) (vc : Option Bool) (g hi : Bool)
    (cmds : List Cmd) (sort : Bool) (key : Option (Cmd → String)) (c : Cmd)
    (hc : c ∈ filter_commands sh vc g hi cmds sort key) :
    c ∈ (if sh then cmds else cmds.filter fun c => !c.hidden) := by
  rcases vc with _ | b
  · simp only [filter_commands] at hc
    by_cases hg : g = false
    · rw [if_pos hg] at hc
      exact mem_of_mem_sortIf _ _ _ _ hc
    · rw [if_neg hg] at hc
      exact List.mem_of_mem_filter (mem_of_mem_sortIf _ _ _ _ hc)
  · cases b
    · simp only [filter_commands] at hc
      exact mem_of_mem_sortIf _ _ _ _ hc
    · simp only [filter_commands] at hc
      exact List.mem_of_mem_filter (mem_of_mem_sortIf _ _ _ _ hc)

theorem pySortByKey_name_sorted (l : List Cmd) :
    List.Sorted (fun a b : Cmd => a.name ≤ b.name) (pySortByKey (fun c => c.name) l) := by
  have h := @List.sorted_mergeSort Cmd (fun a b : Cmd => decide (a.name ≤ b.name))
    (fun a b c hab hbc => by
      simp only [decide_eq_true_eq] at hab hbc ⊢
      exact le_trans hab hbc)
    (fun a b => by
      simp only [Bool.or_eq_true, decide_eq_true_eq]
      exact le_total a.name b.name) l
  exact h.imp fun hab => by simpa using hab

/-- C7: `filter_commands` never returns a command whose `hidden`
attribute is true unless `show_hidden` is set; and with `sort=True` and
no key function the returned list is sorted by command name. -/
theorem filter_commands_spec (sh : Bool) (vc : Option Bool) (g hi : Bool)
    (cmds : List Cmd) (sort : Bool) (key : Option (Cmd → String)) :
    (∀ c ∈ filter_commands sh vc g hi cmds sort key, c.hidden = true → sh = true)
    ∧ List.Sorted (fun a b : Cmd => a.name ≤ b.name)
        (filter_commands sh vc g hi cmds true none) := by
  constructor
  · intro c hc hhid
    by_cases hsh : sh = true
    · exact hsh
    · exfalso
      have hit := filter_commands_subset sh vc g hi cmds sort key c hc
      rw [if_neg hsh] at hit
      have hp := List.of_mem_filter hit
      simp [hhid] at hp
  · rcases vc with _ | b
    · simp only [filter_commands]
      by_cases hg : g = false
      · rw [if_pos hg]
        simp only [if_true]
        exact pySortByKey_name_sorted _
      · rw [if_neg hg]
        simp only [if_true]
        exact pySortByKey_name_sorted _
    · cases b
      · simp only [filter_commands, if_true]
        exact pySortByKey_name_sorted _
      · simp only [filter_commands, if_true]
        exact pySortByKey_name_sorted _

/-- A hidden command, for the C7 witness. -/
def cmdA : Cmd := ⟨"a", true, true, true, false, false, false⟩

/-- A visible command, for the C7 witness. -/
def cmdB : Cmd := ⟨"b", true, false, true, false, false, false⟩

theorem filter_commands_spec_witness :
    cmdA ∈ filter_commands true (some false) true true [cmdA, cmdB] false none
    ∧ cmdA.hidden = true
    ∧ (true : Bool) = true := by
  have hmem : cmdA ∈ filter_commands true (some false) true true [cmdA, cmdB] false none := by
    simp [filter_commands]
  exact ⟨hmem, rfl,
    (filter_commands_spec true (some false) true true [cmdA, cmdB] false none).1
      cmdA hmem rfl⟩

/-! ## `sformat` / `SparseFormatter._vformat` (`discore/utils.py`, 41–148)

`_vformat` consumes the tuples produced by the stdlib
`string.Formatter.parse`; the parsed stream is the model's input.  The
stdlib hooks `format_field` / `convert_field` are abstracted as the
function parameters `fmtF` / `convF`; `get_field` is modelled with
atomic field names (no attribute/index sub-navigation — the sparse
formatter only catches the `IndexError`/`KeyError` of the atomic
lookup).  `none` models the `ValueError`s the code raises (max string
recursion, switching between manual and automatic numbering). -/

/-- A parsed format-string item: literal text, or a replacement field
with its name, optional conversion character and format spec.  The spec
is itself a parsed format string; `[]` stands for the empty spec (which
`parse` reports for both `\x7bx\x7d` and `\x7bx:\x7d`). -/
inductive FItem where
  | lit : String → FItem
  | field : String → Option Char → List FItem → FItem

/-- The `auto_arg_index` state: a counter, or `False` once a manual
(digit) field disabled automatic numbering. -/
inductive AutoIdx where
  | num : Nat → AutoIdx
  | disabled : AutoIdx
deriving DecidableEq, Repr

/-- Python truthiness of `auto_arg_index` (`0` and `False` are falsy). -/
def AutoIdx.truthy : AutoIdx → Bool
  | .num n => n != 0
  | .disabled => false

/-- Python `str.isdigit` (ASCII digits; empty string is not a digit). -/
def pyIsDigit (s : String) : Bool := !s.isEmpty && s.toList.all Char.isDigit

/-- Numeric value of an all-digit string (Python `int(name)`). -/
def digitsToNat (s : List Char) : Nat :=
  s.foldl (fun acc c => acc * 10 + (c.toNat - 48)) 0

/-- The stdlib `Formatter.get_field` head lookup: a digit name indexes
the positional `args`, any other name is looked up in `kwargs`; `none`
models the `IndexError`/`KeyError` caught by `_vformat`. -/
def get_field {V : Type} (args : List V) (kwargs : String → Option V)
    (name : String) : Option V :=
  if pyIsDigit name then args[digitsToNat name.toList]? else kwargs name

/-- The auto-numbering step at the top of the field handling: an empty
name consumes the automatic counter (error when disabled); a digit name
requires the counter untouched (error when truthy) and disables it;
other names pass through. -/
def resolveName (name : String) (auto : AutoIdx) : Option (String × AutoIdx) :=
  if name = "" then
    match auto with
    | .disabled => none
    | .num n => some (toString n, AutoIdx.num (n + 1))
  else if pyIsDigit name then
    if auto.truthy then none else some (name, AutoIdx.disabled)
  else some (name, auto)

/-- `convert_field`: apply the conversion when one is given. -/
def applyConv {V : Type} (convF : Char → V → V) (conv : Option Char) (v : V) : V :=
  match conv with
  | some c => convF c v
  | none => v

/-- The reproduced text of a missing field before the spec is attached:
the original field name with `!conversion` re-attached. -/
def missingBase (name : String) (conv : Option Char) : String :=
  match conv with
  | some c => name ++ "!" ++ String.singleton c
  | none => name

mutual

/-- The `_vformat` body for one parsed item: literals pass through; a
field resolves its name, then either reproduces itself textually
(argument missing: brace-wrapped original name, conversion and
recursively-formatted spec re-attached, recursion depth unchanged) or
formats the argument (conversion applied, spec formatted at decremented
depth, `format_field` applied). -/
def vformatItem {V : Type} (fmtF : V → String → String) (convF : Char → V → V)
    (args : List V) (kwargs : String → Option V) :
    Int → FItem → AutoIdx → Option (String × AutoIdx)
  | _, .lit s, auto => some (s, auto)
  | depth, .field name conv spec, auto =>
    match resolveName name auto with
    | none => none
    | some (name', auto') =>
      match get_field args kwargs name' with
      | none =>
        (match spec with
         | [] => some ("\x7b" ++ missingBase name conv ++ "\x7d", auto')
         | _ =>
           match (if depth < 0 then none
                  else vformatList fmtF convF args kwargs depth spec auto') with
           | none => none
           | some (sp, auto2) =>
             some ("\x7b" ++ missingBase name conv ++ ":" ++ sp ++ "\x7d", auto2))
      | some v =>
        match (if depth - 1 < 0 then none
               else vformatList fmtF convF args kwargs (depth - 1) spec auto') with
        | none => none
        | some (sp, auto2) => some (fmtF (applyConv convF conv v) sp, auto2)

/-- The `_vformat` loop over the parsed item stream, threading
`auto_arg_index` and concatenating the produced text. -/
def vformatList {V : Type} (fmtF : V → String → String) (convF : Char → V → V)
    (args : List V) (kwargs : String → Option V) :
    Int → List FItem → AutoIdx → Option (String × AutoIdx)
  | _, [], auto => some ("", auto)
  | depth, item :: rest, auto =>
    match vformatItem fmtF convF args kwargs depth item auto with
    | none => none
    | some (s, auto') =>
      match vformatList fmtF convF args kwargs depth rest auto' with
      | none => none
      | some (r, auto2) => some (s ++ r, auto2)

end

/-- `sformat(s, *args, **kwargs)`: run `_vformat` at recursion depth 2
over the parsed stream and return the text. -/
def sformat {V : Type} (fmtF : V → String → String) (convF : Char → V → V)
    (args : List V) (kwargs : String → Option V) (items : List FItem) :
    Option String :=
  (vformatList fmtF convF args kwargs 2 items (AutoIdx.num 0)).map Prod.fst

/-- The parsed form of the docstring example `'The \x7b\x7d is \x7b\x7d'`. -/
def exampleItems : List FItem :=
  [.lit "The ", .field "" none [], .lit " is ", .field "" none []]

/-- C10: `sformat` formats every field whose positional or keyword
argument is supplied and reproduces every field whose argument is
missing textually, re-attaching its conversion and format spec: the
`_vformat` loop is compositional in the item stream; a missing field
yields its brace-wrapped original name with `!conv` and the
(recursively sparse-formatted, depth unchanged) `:spec` re-attached; a
supplied field is converted and formatted with its spec formatted at
decremented depth; and on the parsed form of `'The \x7b\x7d is \x7b\x7d'`
with the single argument `'answer'` the result is
`'The answer is \x7b\x7d'`. -/
theorem sformat_sparse {V : Type} (fmtF : V → String → String)
    (convF : Char → V → V) (args : List V) (kwargs : String → Option V) :
    (∀ (depth : Int) (xs ys : List FItem) (auto : AutoIdx),
      vformatList fmtF convF args kwargs depth (xs ++ ys) auto =
        match vformatList fmtF convF args kwargs depth xs auto with
        | none => none
        | some (s1, a1) =>
          match vformatList fmtF convF args kwargs depth ys a1 with
          | none => none
          | some (s2, a2) => some (s1 ++ s2, a2))
    ∧ (∀ (depth : Int) name conv spec auto name' auto',
        resolveName name auto = some (name', auto') →
        get_field args kwargs name' = none →
        vformatItem fmtF convF args kwargs depth (.field name conv spec) auto =
          (match spec with
           | [] => some ("\x7b" ++ missingBase name conv ++ "\x7d", auto')
           | _ =>
             match (if depth < 0 then none
                    else vformatList fmtF convF args kwargs depth spec auto') with
             | none => none
             | some (sp, auto2) =>
               some ("\x7b" ++ missingBase name conv ++ ":" ++ sp ++ "\x7d", auto2)))
    ∧ (∀ (depth : Int) name conv spec auto name' auto' v,
        resolveName name auto = some (name', auto') →
        get_field args kwargs name' = some v →
        vformatItem fmtF convF args kwargs depth (.field name conv spec) auto =
          (match (if depth - 1 < 0 then none
                  else vformatList fmtF convF args kwargs (depth - 1) spec auto') with
           | none => none
           | some (sp, auto2) => some (fmtF (applyConv convF conv v) sp, auto2)))
    ∧ sformat (fun (v : String) _ => v) (fun _ v => v) ["answer"] (fun _ => none)
        exampleItems = some "The answer is \x7b\x7d" := by
  refine ⟨?_, ?_, ?_, ?_⟩
  · intro depth xs ys auto
    induction xs generalizing auto with
    | nil =>
      cases h : vformatList fmtF convF args kwargs depth ys auto with
      | none => simp [vformatList, h]
      | some p => obtain ⟨s, a⟩ := p; simp [vformatList, h]
    | cons item rest ih =>
      rw [List.cons_append]
      cases hi : vformatItem fmtF convF args kwargs depth item auto with
      | none => simp only [vformatList, hi]
      | some p =>
        obtain ⟨s, a⟩ := p
        simp only [vformatList, hi]
        rw [ih a]
        cases hr : vformatList fmtF convF args kwargs depth rest a with
        | none => rfl
        | some q =>
          obtain ⟨r, a2⟩ := q
          dsimp only []
          cases hy : vformatList fmtF convF args kwargs depth ys a2 with
          | none => rfl
          | some w =>
            obtain ⟨t, a3⟩ := w
            simp [String.append_assoc]
  · intro depth name conv spec auto name' auto' hres hget
    simp only [vformatItem, hres, hget]
  · intro depth name conv spec auto name' auto' v hres hget
    simp only [vformatItem, hres, hget]
  · have h0 : toString (0 : Nat) = "0" := rfl
    have h1 : toString (1 : Nat) = "1" := rfl
    have hd0 : pyIsDigit "0" = true := rfl
    have hd1 : pyIsDigit "1" = true := rfl
    have hn0 : digitsToNat ['0'] = 0 := rfl
    have hn1 : digitsToNat ['1'] = 1 := rfl
    have hn0' : digitsToNat ("0" : String).data = 0 := rfl
    have hn1' : digitsToNat ("1" : String).data = 1 := rfl
    simp [sformat, exampleItems, vformatList, vformatItem, resolveName, get_field,
      missingBase, applyConv, h0, h1, hd0, hd1, hn0, hn1, hn0', hn1']

theorem sformat_sparse_witness :
    resolveName "q" (AutoIdx.num 0) = some ("q", AutoIdx.num 0)
    ∧ get_field ([] : List String) (fun _ => none) "q" = none
    ∧ vformatItem (fun (v : String) _ => v) (fun _ v => v) [] (fun _ => none) 2
        (FItem.field "q" none []) (AutoIdx.num 0) = some ("\x7bq\x7d", AutoIdx.num 0) := by
  refine ⟨rfl, rfl, ?_⟩
  have h := (sformat_sparse (fun (v : String) _ => v) (fun _ v => v) [] fun _ => none).2.1
    2 "q" none [] (AutoIdx.num 0) "q" (AutoIdx.num 0) rfl rfl
  simpa using h

end Discore
